import Mathlib

/-!
Verification of the `ancestrydl` reconciliation engine (package `commands` and
`pkg/ancestry`) against its natural-language specification.

The Go source is shallowly embedded: structs become structures, Go maps become
functions `String → Option _` updated pointwise (later writes overwrite earlier
ones, as for a Go map), slices become lists, and `interface\x7b\x7d` values are
embedded as far as the code inspects them.  Network calls are oracles passed as
function parameters.  Go iterates over string bytes; every byte the embedded
code branches on is ASCII, so iterating over characters is equivalent and
strings are handled through their character lists (`String.data`).
-/

/-- Value of Go type `interface\x7b\x7d` as far as the embedded code inspects it:
a type assertion `.(string)` either succeeds with a string or fails. -/
inductive GoVal where
  | str (s : String)
  | other
deriving DecidableEq

/-- Model of Go `strings.TrimSpace`: drop whitespace from both ends
(the code only ever trims ASCII whitespace). -/
def goTrimSpace (s : String) : String :=
  String.mk (((s.data.dropWhile Char.isWhitespace).reverse.dropWhile Char.isWhitespace).reverse)

/-- Model of Go `strings.Fields`: split around runs of whitespace. -/
def goFields (s : String) : List String :=
  ((s.data.splitOnP Char.isWhitespace).map String.mk).filter (fun x => x ≠ "")

/-- Model of Go `strings.ReplaceAll s old new` for single-character `old`/`new`. -/
def goReplaceChar (s : String) (old new : Char) : String :=
  String.mk (s.data.map (fun c => if c = old then new else c))

/-- Pointwise update of a Go map modelled as a lookup function. -/
def mapUpd {α : Type} (m : String → Option α) (k : String) (v : α) : String → Option α :=
  fun x => if x = k then some v else m x

/-- The empty Go map. -/
def mapEmpty {α : Type} : String → Option α := fun _ => none

/-- From `commands/download_tree.go`: constant for the string `Birth`. -/
def Birth : String := "Birth"

/-- From `commands/download_tree.go`: constant for the string `Death`. -/
def Death : String := "Death"

/-- From `pkg/ancestry/api.go` `Name`: a person's structured name. -/
structure Name where
  id : String := ""
  givenName : String := ""
  surname : String := ""
deriving DecidableEq

/-- From `pkg/ancestry/api.go` `Event`: a life event.  `Date` is
`interface\x7b\x7d` in Go; the code only compares dates through their
`fmt.Sprintf` rendering and tests them against `nil`, so a date is embedded
as `Option String` holding that rendering (`none` = `nil`).  `NPS` is a list of
maps of which only the string value at key `v` is ever read or written, so each
entry is embedded as that optional value. -/
structure Event where
  id : String := ""
  type : String := ""
  date : Option String := none
  nps : List (Option String) := []
  description : String := ""
deriving DecidableEq

/-- From `pkg/ancestry/api.go` `FamilyMember`: a family relationship entry.
`TGID` is a map of which only the `v` entry is read (by a `.(string)`
assertion), embedded as `tgidV`. -/
structure FamilyMember where
  type : String := ""
  tgidV : Option GoVal := none
deriving DecidableEq

/-- From `pkg/ancestry/api.go` `Person`.  `GID` is a map of which only the `v`
entry is read, embedded as `gidV`.  Fields the embedded code never touches are
omitted. -/
structure Person where
  gidV : Option GoVal := none
  pid : String := ""
  names : List Name := []
  givenName : String := ""
  surname : String := ""
  gender : String := ""
  isLiving : Bool := false
  events : List Event := []
  family : List FamilyMember := []
deriving DecidableEq

/-- From `pkg/ancestry/api.go` `Person.GetPersonID`: prefer `PID`, else the
string at `GID["v"]`, else the empty string. -/
def Person.getPersonID (p : Person) : String :=
  if p.pid ≠ "" then p.pid
  else match p.gidV with
    | some (.str v) => v
    | _ => ""

/-- From `pkg/ancestry/api.go` `Person.GetDisplayName`: name from the first
`Names` entry when one of its parts is non-empty, else from the flat fields,
else empty. -/
def Person.getDisplayName (p : Person) : String :=
  match p.names with
  | n :: _ =>
    if n.givenName ≠ "" ∨ n.surname ≠ "" then goTrimSpace (n.givenName ++ " " ++ n.surname)
    else if p.givenName ≠ "" ∨ p.surname ≠ "" then goTrimSpace (p.givenName ++ " " ++ p.surname)
    else ""
  | [] =>
    if p.givenName ≠ "" ∨ p.surname ≠ "" then goTrimSpace (p.givenName ++ " " ++ p.surname)
    else ""

/-- Character class kept by the ASCII safety filter in
`commands/utils.go` `sanitizeFilename`: underscore, hyphen, digits,
upper-case and lower-case ASCII letters (all of which satisfy `r < 128`). -/
def isFilenameSafeChar (c : Char) : Bool :=
  decide (c.val < 128) &&
    (c = '_' || c = '-' || ('0' ≤ c && c ≤ '9') || ('A' ≤ c && c ≤ 'Z') || ('a' ≤ c && c ≤ 'z'))

/-- Cutset of Go `strings.Trim(name, "-_ ")` in `sanitizeFilename`. -/
def isTrimCutChar (c : Char) : Bool :=
  c = '-' || c = '_' || c = ' '

/-- Per-character action of the `strings.NewReplacer` in
`commands/utils.go` `sanitizeFilename`: `/`, `\`, `:` become `-`;
`*`, `?`, `"`, `<`, `>`, `|`, `.` are removed; every pattern of the replacer
is a single character, so it acts characterwise. -/
def sanitizeReplaceChar (c : Char) : List Char :=
  if c = '/' ∨ c = Char.ofNat 92 ∨ c = ':' then ['-']
  else if c = '*' ∨ c = '?' ∨ c = Char.ofNat 34 ∨ c = '<' ∨ c = '>' ∨ c = '|' ∨ c = '.' then []
  else [c]

/-- Steps of `commands/utils.go` `sanitizeFilename` after the Unicode
transliteration: replace spaces with underscores, apply the replacer, keep only
filename-safe ASCII characters, truncate to 50 (bytes = characters, since all
remaining characters are ASCII), trim `-`, `_`, ` ` from both ends, and fall
back to `unnamed` when nothing is left. -/
def sanitizeAsciiSteps (chars : List Char) : List Char :=
  let underscored := chars.map (fun c => if c = ' ' then '_' else c)
  let replaced := underscored.flatMap sanitizeReplaceChar
  let filtered := replaced.filter isFilenameSafeChar
  let truncated := filtered.take 50
  let trimmed := ((truncated.dropWhile isTrimCutChar).reverse.dropWhile isTrimCutChar).reverse
  if trimmed = [] then "unnamed".data else trimmed

/-- From `commands/utils.go` `sanitizeFilename`.  The first step transliterates
Unicode to ASCII via `golang.org/x/text` (`NFD`, remove combining marks,
`NFC`), an external library call; it is taken as the parameter
`transliterate` (on transform failure the code keeps the original name, which
is the case `transliterate = id`).  Every property proved below holds for an
arbitrary `transliterate`. -/
def sanitizeFilename (transliterate : String → String) (name : String) : String :=
  String.mk (sanitizeAsciiSteps (transliterate name).data)

/-- From `commands/download_tree.go` `downloadAllPersons`, the page loop:
fetch pages in order, append results; the first failing page aborts with an
error.  `fetchPage` is the `GetAllPersons` transport oracle. -/
def downloadPages (fetchPage : Nat → Except String (List Person)) :
    List Nat → List Person → Except String (List Person)
  | [], allPersons => .ok allPersons
  | page :: rest, allPersons =>
    match fetchPage page with
    | .ok persons => downloadPages fetchPage rest (allPersons ++ persons)
    | .error e => .error ("failed to fetch page " ++ toString page ++ ": " ++ e)

/-- Number of catalog pages for a given total count at page size 100, as
computed by `downloadAllPersons` (`(totalCount + limit - 1) / limit`). -/
def totalPagesFor (totalCount : Nat) : Nat :=
  (totalCount + 100 - 1) / 100

/-- From `commands/download_tree.go` `downloadAllPersons`: fetch pages
`1..totalPages` and concatenate the results; any page failure is returned as
an error (which `fetchTreeData` propagates, aborting the run). -/
def downloadAllPersons (fetchPage : Nat → Except String (List Person)) (totalCount : Nat) :
    Except String (List Person) :=
  downloadPages fetchPage (List.range' 1 (totalPagesFor totalCount)) []

lemma dropWhile_head?_false {p : Char → Bool} :
    ∀ {l : List Char} {c : Char}, (l.dropWhile p).head? = some c → p c = false := by
  intro l
  induction l with
  | nil => intro c h; simp [List.dropWhile] at h
  | cons hd tl ih =>
    intro c h
    rw [List.dropWhile_cons] at h
    by_cases hp : p hd = true
    · rw [if_pos hp] at h; exact ih h
    · rw [if_neg hp] at h
      simp only [List.head?_cons, Option.some.injEq] at h
      rw [← h]
      exact Bool.eq_false_iff.mpr hp

lemma dropWhile_getLast?_of_ne_nil {p : Char → Bool} :
    ∀ {l : List Char}, l.dropWhile p ≠ [] → (l.dropWhile p).getLast? = l.getLast? := by
  intro l
  induction l with
  | nil => intro h; simp [List.dropWhile] at h
  | cons hd tl ih =>
    intro h
    rw [List.dropWhile_cons] at h ⊢
    by_cases hp : p hd = true
    · rw [if_pos hp] at h ⊢
      have htl : tl ≠ [] := by
        intro he; rw [he] at h; simp [List.dropWhile] at h
      obtain ⟨a, tl', rfl⟩ := List.exists_cons_of_ne_nil htl
      rw [ih h, List.getLast?_cons_cons]
    · rw [if_neg hp]

lemma trimCut_false_not_dash_underscore {c : Char} (h : isTrimCutChar c = false) :
    c ≠ '-' ∧ c ≠ '_' := by
  simp only [isTrimCutChar, Bool.or_eq_false_iff, decide_eq_false_iff_not] at h
  exact ⟨h.1.1, h.1.2⟩

/-- C10: for every input string, `sanitizeFilename` (the `commands/utils.go`
definition, for an arbitrary transliteration front end) returns a non-empty
string of at most 50 characters (equivalently bytes, as all of them are
ASCII), each a letter, digit, underscore or hyphen, whose first and last
characters are neither `-` nor `_`; the fallback `unnamed` is returned when
every character is stripped. -/
theorem sanitizeFilename_filesystem_safe (transliterate : String → String) (name : String) :
    sanitizeFilename transliterate name ≠ "" ∧
    (sanitizeFilename transliterate name).data.length ≤ 50 ∧
    (sanitizeFilename transliterate name).data.all isFilenameSafeChar = true ∧
    (∀ c, (sanitizeFilename transliterate name).data.head? = some c → c ≠ '-' ∧ c ≠ '_') ∧
    (∀ c, (sanitizeFilename transliterate name).data.getLast? = some c → c ≠ '-' ∧ c ≠ '_') := by
  set chars := (transliterate name).data with hchars
  rw [sanitizeFilename]
  unfold sanitizeAsciiSteps
  set truncated := (((chars.map (fun c => if c = ' ' then '_' else c)).flatMap
      sanitizeReplaceChar).filter isFilenameSafeChar).take 50 with htrunc
  set A := truncated.dropWhile isTrimCutChar with hA
  set B := A.reverse.dropWhile isTrimCutChar with hB
  by_cases hnil : B.reverse = []
  · rw [if_pos hnil]
    refine ⟨by decide, by decide, by decide, ?_, ?_⟩
    · intro c hc
      have hc' : some 'u' = some c := hc
      cases hc'
      decide
    · intro c hc
      have hc' : some 'd' = some c := hc
      cases hc'
      decide
  · rw [if_neg hnil]
    have hBnil : B ≠ [] := fun h => hnil (by rw [h]; rfl)
    refine ⟨?_, ?_, ?_, ?_, ?_⟩
    · intro h
      exact hnil (congrArg String.data h)
    · have h1 : (String.mk B.reverse).data.length = B.length := List.length_reverse B
      rw [h1]
      calc B.length ≤ A.reverse.length := (List.dropWhile_sublist _).length_le
        _ = A.length := List.length_reverse A
        _ ≤ truncated.length := (List.dropWhile_sublist _).length_le
        _ ≤ 50 := by rw [htrunc, List.length_take]; exact min_le_left _ _
    · rw [List.all_eq_true]
      intro x hx
      have hx1 : x ∈ B := List.mem_reverse.mp hx
      have hx2 : x ∈ A := List.mem_reverse.mp ((List.dropWhile_sublist _).mem hx1)
      have hx3 : x ∈ truncated := (List.dropWhile_sublist _).mem hx2
      have hxf := List.mem_filter.mp (List.take_subset _ _ hx3)
      exact hxf.2
    · intro c hc
      have hc' : B.reverse.head? = some c := hc
      rw [List.head?_reverse, dropWhile_getLast?_of_ne_nil hBnil, List.getLast?_reverse] at hc'
      exact trimCut_false_not_dash_underscore (dropWhile_head?_false hc')
    · intro c hc
      have hc' : B.reverse.getLast? = some c := hc
      rw [List.getLast?_reverse] at hc'
      exact trimCut_false_not_dash_underscore (dropWhile_head?_false hc')

/-- Witness for C10 at a concrete input: a name with accents already
transliterated, spaces, a forbidden character and surrounding underscores. -/
theorem sanitizeFilename_filesystem_safe_witness :
    sanitizeFilename (fun s => s) "_Joao da Silva?_" ≠ "" ∧
    (sanitizeFilename (fun s => s) "_Joao da Silva?_").data.length ≤ 50 ∧
    (sanitizeFilename (fun s => s) "_Joao da Silva?_").data.all isFilenameSafeChar = true ∧
    (∀ c, (sanitizeFilename (fun s => s) "_Joao da Silva?_").data.head? = some c →
      c ≠ '-' ∧ c ≠ '_') ∧
    (∀ c, (sanitizeFilename (fun s => s) "_Joao da Silva?_").data.getLast? = some c →
      c ≠ '-' ∧ c ≠ '_') :=
  sanitizeFilename_filesystem_safe (fun s => s) "_Joao da Silva?_"

lemma downloadPages_isOk_iff (fetchPage : Nat → Except String (List Person)) :
    ∀ (pages : List Nat) (acc : List Person),
      (downloadPages fetchPage pages acc).isOk = true ↔ ∀ p ∈ pages, (fetchPage p).isOk = true := by
  intro pages
  induction pages with
  | nil => intro acc; simp [downloadPages, Except.isOk, Except.toBool]
  | cons page rest ih =>
    intro acc
    cases hf : fetchPage page with
    | ok persons =>
      simp only [downloadPages, hf, List.mem_cons]
      constructor
      · intro h p hp
        rcases hp with rfl | hp
        · rw [hf]; rfl
        · exact ((ih _).mp h) p hp
      · intro h
        exact (ih _).mpr (fun p hp => h p (Or.inr hp))
    | error e =>
      simp only [downloadPages, hf, List.mem_cons]
      constructor
      · intro h; exact absurd h (Bool.false_ne_true)
      · intro h
        have hpage := h page (Or.inl rfl)
        rw [hf] at hpage
        exact absurd hpage (Bool.false_ne_true)

lemma downloadPages_eq_ok (fetchPage : Nat → Except String (List Person)) :
    ∀ (pages : List Nat) (acc : List Person),
      (∀ p ∈ pages, (fetchPage p).isOk = true) →
      downloadPages fetchPage pages acc =
        .ok (acc ++ pages.flatMap (fun p => (fetchPage p).toOption.getD [])) := by
  intro pages
  induction pages with
  | nil => intro acc _; simp [downloadPages]
  | cons page rest ih =>
    intro acc h
    have hpage := h page (List.mem_cons_self _ _)
    cases hf : fetchPage page with
    | error e => rw [hf] at hpage; exact absurd hpage (Bool.false_ne_true)
    | ok persons =>
      simp only [downloadPages, hf]
      rw [ih (acc ++ persons) (fun p hp => h p (List.mem_cons_of_mem _ hp))]
      simp [hf, Except.toOption, List.append_assoc]

/-- Fixture for C1: a three-page catalog fetch in which only page 2 fails. -/
def pageTwoFailsFetch : Nat → Except String (List Person) :=
  fun page => if page = 2 then .error "boom" else .ok [{ pid := "A" }]

/-- Fixture for C4: two catalog pages that overlap on person `X`. -/
def overlappingPagesFetch : Nat → Except String (List Person) :=
  fun page => if page = 1 then .ok [{ pid := "X" }] else .ok [{ pid := "X" }, { pid := "Y" }]

/-- C1 (amended): `downloadAllPersons` performs no retries and records no page
gaps: the roster acquisition succeeds exactly when every catalog page fetch
succeeds, so the first failing page aborts the whole acquisition with an error
(which `fetchTreeData` propagates, aborting the run); a count-probe failure
also aborts, earlier in `fetchTreeData`. -/
theorem downloadAllPersons_succeeds_iff_all_pages_succeed
    (fetchPage : Nat → Except String (List Person)) (totalCount : Nat) :
    (downloadAllPersons fetchPage totalCount).isOk = true ↔
      ∀ p ∈ List.range' 1 (totalPagesFor totalCount), (fetchPage p).isOk = true :=
  downloadPages_isOk_iff fetchPage _ []

/-- Witness for C1 (amended) at a concrete input: with every page succeeding,
a three-page acquisition succeeds. -/
theorem downloadAllPersons_succeeds_iff_all_pages_succeed_witness :
    (downloadAllPersons (fun _ => .ok [{ pid := "A" }]) 300).isOk = true :=
  (downloadAllPersons_succeeds_iff_all_pages_succeed (fun _ => .ok [{ pid := "A" }]) 300).mpr
    (by decide)

/-- C1 counterexample: the count probe succeeded (300 persons, 3 pages) and
only page 2 fails, yet the whole acquisition returns an error instead of
retrying, recording a gap and returning the entities of pages 1 and 3. -/
theorem downloadAllPersons_page_failure_counterexample :
    downloadAllPersons pageTwoFailsFetch 300 = .error "failed to fetch page 2: boom" := by
  rfl

/-- C4 (amended): the roster assembled across catalog pages is not
deduplicated by entity ID: when every page fetch succeeds, `downloadAllPersons`
returns the plain concatenation of the page results in page order, so a person
returned on two (overlapping) pages occurs once per page in the result. -/
theorem downloadAllPersons_concatenates_pages_without_dedup
    (fetchPage : Nat → Except String (List Person)) (totalCount : Nat)
    (h : ∀ p ∈ List.range' 1 (totalPagesFor totalCount), (fetchPage p).isOk = true) :
    downloadAllPersons fetchPage totalCount =
      .ok ((List.range' 1 (totalPagesFor totalCount)).flatMap
        (fun p => (fetchPage p).toOption.getD [])) := by
  have := downloadPages_eq_ok fetchPage (List.range' 1 (totalPagesFor totalCount)) [] h
  simpa [downloadAllPersons] using this

/-- Witness for C4 (amended) at a concrete input: two overlapping pages are
concatenated, keeping the duplicate. -/
theorem downloadAllPersons_concatenates_pages_without_dedup_witness :
    downloadAllPersons overlappingPagesFetch 200 =
      .ok ((List.range' 1 (totalPagesFor 200)).flatMap
        (fun p => (overlappingPagesFetch p).toOption.getD [])) :=
  downloadAllPersons_concatenates_pages_without_dedup overlappingPagesFetch 200 (by decide)

/-- C4 counterexample: the remote source returns person `X` on both of two
pages; the list returned by `downloadAllPersons` contains `X`'s ID twice, so
the roster is not deduplicated by entity ID. -/
theorem downloadAllPersons_duplicate_id_counterexample :
    ((downloadAllPersons overlappingPagesFetch 200).toOption.getD []).countP
      (fun p => p.getPersonID == "X") = 2 := by
  rfl

/-- From `commands/download_tree.go` `RelationshipReference`: a reference to
another person in the tree. -/
structure RelationshipReference where
  personID : String
  name : String
deriving DecidableEq

/-- From `commands/download_tree.go` `PersonRelationship`: relationship
information for a person. -/
structure PersonRelationship where
  personID : String := ""
  name : String := ""
  parents : List RelationshipReference := []
  spouses : List RelationshipReference := []
  children : List RelationshipReference := []
deriving DecidableEq

/-- From `commands/download_tree.go` `buildFamilyViewPersonsMap`: map from
person ID to the person, for persons with a non-empty ID (later entries
overwrite earlier ones, as for a Go map). -/
def buildFamilyViewPersonsMap (persons : List Person) : String → Option Person :=
  persons.foldl
    (fun m p => if p.getPersonID ≠ "" then mapUpd m p.getPersonID p else m)
    mapEmpty

/-- From `commands/download_tree.go` `extractTargetIDAndName`: take the target
ID from the `tgid` map's `v` entry by a string type assertion (failure means
the member is skipped), and resolve the display name from the payload's
persons map, falling back to the raw ID string. -/
def extractTargetIDAndName (familyMember : FamilyMember)
    (personsMap : String → Option Person) : Option (String × String) :=
  match familyMember.tgidV with
  | some (.str targetID) =>
    some (targetID,
      match personsMap targetID with
      | some targetPerson => targetPerson.getDisplayName
      | none => targetID)
  | _ => none

/-- From `commands/download_tree.go` `addFamilyMemberToRelationship`: route a
family member by its type code to the parents (`F`, `M`), spouses (`H`, `W`)
or children (`C`) list; any other code is dropped. -/
def addFamilyMemberToRelationship (rel : PersonRelationship)
    (familyMember : FamilyMember) (ref : RelationshipReference) : PersonRelationship :=
  if familyMember.type = "F" ∨ familyMember.type = "M" then
    { rel with parents := rel.parents ++ [ref] }
  else if familyMember.type = "H" ∨ familyMember.type = "W" then
    { rel with spouses := rel.spouses ++ [ref] }
  else if familyMember.type = "C" then
    { rel with children := rel.children ++ [ref] }
  else rel

/-- From `commands/download_tree.go` `processFamilyView`: build the
relationship entry of the focal person from a family-view response (its
persons list), returning also the focal person's events; `none` when the
focal person is absent from the payload. -/
def processFamilyView (personID : String) (familyViewPersons : List Person) :
    Option (PersonRelationship × List Event) :=
  let personsMap := buildFamilyViewPersonsMap familyViewPersons
  match personsMap personID with
  | none => none
  | some focusPerson =>
    let rel := focusPerson.family.foldl
      (fun rel familyMember =>
        match extractTargetIDAndName familyMember personsMap with
        | none => rel
        | some (targetID, targetName) =>
          addFamilyMemberToRelationship rel familyMember ⟨targetID, targetName⟩)
      { personID := personID, name := focusPerson.getDisplayName,
        parents := [], spouses := [], children := [] }
    some (rel, focusPerson.events)

/-- C9: family-member type codes `F`/`M` produce parent entries, `H`/`W`
spouse entries and `C` child entries; the entry's display name is resolved
from the payload's persons map when the target ID is found there, and an
unresolvable target ID is still recorded with the raw ID string as its
display name. -/
theorem familyMember_routing_and_name_resolution
    (personsMap : String → Option Person) (rel : PersonRelationship)
    (familyMember : FamilyMember) (tid : String)
    (h : familyMember.tgidV = some (.str tid)) :
    extractTargetIDAndName familyMember personsMap =
      some (tid, (match personsMap tid with
        | some p => p.getDisplayName
        | none => tid)) ∧
    (personsMap tid = none → extractTargetIDAndName familyMember personsMap = some (tid, tid)) ∧
    (∀ ref, familyMember.type = "F" ∨ familyMember.type = "M" →
      addFamilyMemberToRelationship rel familyMember ref =
        { rel with parents := rel.parents ++ [ref] }) ∧
    (∀ ref, familyMember.type = "H" ∨ familyMember.type = "W" →
      addFamilyMemberToRelationship rel familyMember ref =
        { rel with spouses := rel.spouses ++ [ref] }) ∧
    (∀ ref, familyMember.type = "C" →
      addFamilyMemberToRelationship rel familyMember ref =
        { rel with children := rel.children ++ [ref] }) := by
  refine ⟨?_, ?_, ?_, ?_, ?_⟩
  · rw [extractTargetIDAndName, h]
  · intro hnone
    rw [extractTargetIDAndName, h]
    show some (tid, (match personsMap tid with
      | some p => p.getDisplayName
      | none => tid)) = some (tid, tid)
    rw [hnone]
  · intro ref htype
    rw [addFamilyMemberToRelationship, if_pos htype]
  · intro ref htype
    rcases htype with htype | htype <;>
      rw [addFamilyMemberToRelationship, htype] <;>
      rw [if_neg (by decide), if_pos (by decide)]
  · intro ref htype
    rw [addFamilyMemberToRelationship, htype, if_neg (by decide), if_neg (by decide),
      if_pos (by decide)]

/-- Witness for C9 at concrete inputs: a resolvable wife reference and an
unresolvable father reference. -/
theorem familyMember_routing_and_name_resolution_witness :
    (extractTargetIDAndName { type := "F", tgidV := some (.str "T1") } mapEmpty =
      some ("T1", (match (mapEmpty : String → Option Person) "T1" with
        | some p => p.getDisplayName
        | none => "T1")) ∧
    ((mapEmpty : String → Option Person) "T1" = none →
      extractTargetIDAndName { type := "F", tgidV := some (.str "T1") } mapEmpty =
        some ("T1", "T1")) ∧
    (∀ ref, (({ type := "F", tgidV := some (.str "T1") } : FamilyMember).type = "F" ∨
        ({ type := "F", tgidV := some (.str "T1") } : FamilyMember).type = "M") →
      addFamilyMemberToRelationship { personID := "p" } { type := "F", tgidV := some (.str "T1") } ref =
        { ({ personID := "p" } : PersonRelationship) with
            parents := ({ personID := "p" } : PersonRelationship).parents ++ [ref] }) ∧
    (∀ ref, (({ type := "F", tgidV := some (.str "T1") } : FamilyMember).type = "H" ∨
        ({ type := "F", tgidV := some (.str "T1") } : FamilyMember).type = "W") →
      addFamilyMemberToRelationship { personID := "p" } { type := "F", tgidV := some (.str "T1") } ref =
        { ({ personID := "p" } : PersonRelationship) with
            spouses := ({ personID := "p" } : PersonRelationship).spouses ++ [ref] }) ∧
    (∀ ref, ({ type := "F", tgidV := some (.str "T1") } : FamilyMember).type = "C" →
      addFamilyMemberToRelationship { personID := "p" } { type := "F", tgidV := some (.str "T1") } ref =
        { ({ personID := "p" } : PersonRelationship) with
            children := ({ personID := "p" } : PersonRelationship).children ++ [ref] })) :=
  familyMember_routing_and_name_resolution mapEmpty { personID := "p" }
    { type := "F", tgidV := some (.str "T1") } "T1" rfl

/-- From `pkg/ancestry/api.go` `PersonFactDetail.SourceCitationIDs`, an
`interface\x7b\x7d` that the code inspects as: absent (`nil`), a string
(comma- or space-separated), or a JSON array of values. -/
inductive SourceCitationIDs where
  | nil
  | str (s : String)
  | arr (items : List GoVal)
deriving DecidableEq

/-- From `pkg/ancestry/api.go` `PersonFactDetail`: one fact with complete
details.  `Date` is embedded like `Event.date`; `PlaceGpids` is never read. -/
structure PersonFactDetail where
  type : Int := 0
  typeString : String := ""
  title : String := ""
  place : String := ""
  description : String := ""
  date : Option String := none
  sourceCitationIDs : SourceCitationIDs := .nil
  assertionID : String := ""
deriving DecidableEq

/-- From `pkg/ancestry/api.go` `PersonSourceDetail`: a detailed source record
from the `PersonSources` array (fields the embedded code never reads are
omitted). -/
structure PersonSourceDetail where
  citationId : String := ""
  databaseId : String := ""
  recordId : String := ""
  sourceId : String := ""
  title : String := ""
  recordImageUrl : String := ""
  recordImagePreviewUrl : String := ""
deriving DecidableEq

/-- From `pkg/ancestry/api.go` `ResearchData`: the `window.researchData`
object embedded in Facts pages. -/
structure ResearchData where
  personFacts : List PersonFactDetail := []
  personSources : List PersonSourceDetail := []
deriving DecidableEq

/-- The backslash character (ASCII 92). -/
def backslashChar : Char := Char.ofNat 92

/-- The double-quote character (ASCII 34). -/
def quoteChar : Char := Char.ofNat 34

/-- The opening curly brace character (ASCII 123). -/
def openBraceChar : Char := Char.ofNat 123

/-- The closing curly brace character (ASCII 125). -/
def closeBraceChar : Char := Char.ofNat 125

/-- The marker preceding the embedded JSON blob in a Facts page. -/
def researchDataMarker : List Char := "window.researchData = ".data

/-- Model of Go `strings.Index`: the first index at which `pat` occurs in
`hay`, or `none`. -/
def indexOfSub (hay pat : List Char) : Option Nat :=
  match hay with
  | [] => if pat.isPrefixOf [] then some 0 else none
  | c :: t =>
    if pat.isPrefixOf (c :: t) then some 0
    else (indexOfSub t pat).map (fun n => n + 1)

/-- From `pkg/ancestry/api.go` `GetPersonFactsFromHTML`, the brace-counting
loop: scan the input counting braces, tracking whether the scanner is inside a
quoted string and honouring escape characters; stop (recording the end index)
when the count returns to zero at a closing brace.  Returns the final brace
count and the end index, `none` when the loop ran off the end of the input
(in which case Go leaves `jsonEndIndex` at the start, an empty slice). -/
def braceScanAux : List Char → Int → Bool → Bool → Nat → Int × Option Nat
  | [], braceCount, _, _, _ => (braceCount, none)
  | ch :: rest, braceCount, inString, escaped, i =>
    if escaped then braceScanAux rest braceCount inString false (i + 1)
    else if ch = backslashChar then braceScanAux rest braceCount inString true (i + 1)
    else if ch = quoteChar then braceScanAux rest braceCount (!inString) escaped (i + 1)
    else if inString then braceScanAux rest braceCount inString escaped (i + 1)
    else if ch = openBraceChar then braceScanAux rest (braceCount + 1) inString escaped (i + 1)
    else if ch = closeBraceChar then
      if braceCount - 1 = 0 then (0, some (i + 1))
      else braceScanAux rest (braceCount - 1) inString escaped (i + 1)
    else braceScanAux rest braceCount inString escaped (i + 1)

/-- From `pkg/ancestry/api.go` `GetPersonFactsFromHTML` (after the transport
fetch, which is the caller's oracle): absence of the marker is no data and no
error; an unbalanced brace scan is an error; otherwise the scanned slice is
passed to JSON unmarshalling (`encoding/json`, an external package, taken as
the parameter `unmarshal`). -/
def getPersonFactsFromHTML (unmarshal : List Char → Except String ResearchData)
    (html : List Char) : Except String (Option ResearchData) :=
  match indexOfSub html researchDataMarker with
  | none => .ok none
  | some startIndex =>
    let jsonStart := startIndex + researchDataMarker.length
    let scan := braceScanAux (html.drop jsonStart) 0 false false 0
    if scan.1 ≠ 0 then .error "could not find matching closing brace for window.researchData"
    else
      match unmarshal ((html.drop jsonStart).take (scan.2.getD 0)) with
      | .ok researchData => .ok (some researchData)
      | .error _ => .error "failed to unmarshal window.researchData"

/-- From `commands/download_tree.go` `fetchFactsForAllPersons`, the per-fact
conversion: facts with no type, place and description are noise; `CustomEvent`
facts with a title use the title as the event type; a non-empty place becomes
the single `v` entry of the event's `NPS`. -/
def factToEvent (fact : PersonFactDetail) : Option Event :=
  if fact.typeString = "" ∧ fact.place = "" ∧ fact.description = "" then none
  else
    let eventType :=
      if fact.typeString = "CustomEvent" ∧ fact.title ≠ "" then fact.title else fact.typeString
    let event : Event := { type := eventType, date := fact.date, description := fact.description }
    some (if fact.place ≠ "" then { event with nps := [some fact.place] } else event)

/-- From `commands/download_tree.go` `fetchFactsForAllPersons`, the body of
the loop for one person: a failed fetch or an absent/empty payload leaves the
person untouched; otherwise the converted facts, when non-empty, replace the
person's event list (`persons[i].Events = events`). -/
def fetchFactsStep (fetch : String → Except String (Option ResearchData)) (p : Person) : Person :=
  match fetch p.getPersonID with
  | .error _ => p
  | .ok none => p
  | .ok (some researchData) =>
    if researchData.personFacts = [] then p
    else
      let events := researchData.personFacts.filterMap factToEvent
      if events = [] then p else { p with events := events }

/-- From `commands/download_tree.go` `fetchFactsForAllPersons`: apply the loop
body to each person in order (iterations touch only `persons[i]`, so the loop
is a map).  `fetch` is `GetPersonFactsFromHTML` supplied with the transport. -/
def fetchFactsForAllPersons (fetch : String → Except String (Option ResearchData))
    (persons : List Person) : List Person :=
  persons.map (fetchFactsStep fetch)

/-- C7: if the `window.researchData = ` marker is absent, extraction returns
no data and no error; if the marker is present but the quote-aware,
escape-aware brace scan ends with the braces unbalanced, extraction returns an
error; and `fetchFactsForAllPersons` absorbs a failed fetch for one person —
that person keeps its already-merged events and processing continues over the
whole list. -/
theorem getPersonFactsFromHTML_marker_and_scan_behaviour
    (unmarshal : List Char → Except String ResearchData) (html : List Char) :
    (indexOfSub html researchDataMarker = none →
      getPersonFactsFromHTML unmarshal html = .ok none) ∧
    (∀ i, indexOfSub html researchDataMarker = some i →
      (braceScanAux (html.drop (i + researchDataMarker.length)) 0 false false 0).1 ≠ 0 →
      (getPersonFactsFromHTML unmarshal html).isOk = false) ∧
    (∀ (fetch : String → Except String (Option ResearchData)) (persons : List Person)
        (j : Nat) (p : Person),
      persons.get? j = some p → (fetch p.getPersonID).isOk = false →
      (fetchFactsForAllPersons fetch persons).get? j = some p ∧
      (fetchFactsForAllPersons fetch persons).length = persons.length) := by
  refine ⟨?_, ?_, ?_⟩
  · intro hnone
    rw [getPersonFactsFromHTML, hnone]
  · intro i hi hscan
    rw [getPersonFactsFromHTML, hi]
    show (if (braceScanAux (html.drop (i + researchDataMarker.length)) 0 false false 0).1 ≠ 0
        then _ else _ : Except String (Option ResearchData)).isOk = false
    rw [if_pos hscan]
    rfl
  · intro fetch persons j p hj hfail
    have hstep : fetchFactsStep fetch p = p := by
      rw [fetchFactsStep]
      cases hf : fetch p.getPersonID with
      | error e => rfl
      | ok v => rw [hf] at hfail; exact absurd hfail (by cases v <;> simp [Except.isOk, Except.toBool])
    constructor
    · rw [fetchFactsForAllPersons, List.get?_map, hj]
      show some (fetchFactsStep fetch p) = some p
      rw [hstep]
    · rw [fetchFactsForAllPersons, List.length_map]

/-- Fixture for C7: HTML with the marker followed by an unterminated quoted
string, so the brace scan runs off the end of the input unbalanced. -/
def malformedDetailBlob : List Char :=
  researchDataMarker ++ [openBraceChar, quoteChar, 'a']

/-- Fixture for C2/C7: a person with one GraphBuilder-sourced event. -/
def personWithResidence : Person :=
  { pid := "p1",
    events := [{ type := "Residence", date := some "1900", description := "old home" }] }

/-- Witness for C7 at concrete inputs: no marker in plain HTML; the malformed
blob is rejected; a failing per-person fetch leaves the person unchanged. -/
theorem getPersonFactsFromHTML_marker_and_scan_behaviour_witness :
    getPersonFactsFromHTML (fun _ => .error "nope") "<html></html>".data = .ok none ∧
    (getPersonFactsFromHTML (fun _ => .error "nope") malformedDetailBlob).isOk = false ∧
    ((fetchFactsForAllPersons (fun _ => .error "bad") [personWithResidence]).get? 0 =
        some personWithResidence ∧
      (fetchFactsForAllPersons (fun _ => .error "bad") [personWithResidence]).length =
        [personWithResidence].length) :=
  ⟨(getPersonFactsFromHTML_marker_and_scan_behaviour (fun _ => .error "nope")
      "<html></html>".data).1 (by decide),
   (getPersonFactsFromHTML_marker_and_scan_behaviour (fun _ => .error "nope")
      malformedDetailBlob).2.1 0 (by decide) (by decide),
   (getPersonFactsFromHTML_marker_and_scan_behaviour (fun _ => .error "nope")
      malformedDetailBlob).2.2 (fun _ => .error "bad") [personWithResidence] 0
      personWithResidence (by decide) (by decide)⟩

/-- Fixture for C2: the Facts page of `personWithResidence` yields one fact
with a date different from the existing event's date. -/
def burialResearchData : ResearchData :=
  { personFacts := [{ typeString := "Burial", date := some "1950" }], personSources := [] }

/-- Fixture for C2: a fetch oracle returning `burialResearchData` for every
person. -/
def burialFetch : String → Except String (Option ResearchData) :=
  fun _ => .ok (some burialResearchData)

/-- C2 counterexample: the person holds a GraphBuilder event dated 1900 and
the Facts page yields one fact dated 1950; the claim predicts both events
(enrich by date, append new dates, drop nothing), but the code replaces the
whole event list — the 1900 event is gone and only the fact-derived event
remains. -/
theorem fetchFactsForAllPersons_drops_graphbuilder_events_counterexample :
    (fetchFactsForAllPersons burialFetch [personWithResidence]).map Person.events =
      [[{ type := "Burial", date := some "1950" }]] ∧
    ({ type := "Residence", date := some "1900", description := "old home" } : Event) ∉
      ((fetchFactsForAllPersons burialFetch [personWithResidence]).flatMap Person.events) := by
  decide

/-- C2 (amended): for every person, when the Facts fetch succeeds and the
extracted facts convert to at least one meaningful event, the person's entire
event list is replaced by the fact-derived events (GraphBuilder-sourced events
are all dropped, whether or not a fact shares their date); the person keeps
its events only when the fetch fails, returns no payload, or yields no
meaningful facts.  Each person is processed independently and in order. -/
theorem fetchFactsForAllPersons_replacement_semantics
    (fetch : String → Except String (Option ResearchData)) (persons : List Person) :
    ((fetchFactsForAllPersons fetch persons).length = persons.length) ∧
    (∀ i p, persons.get? i = some p →
      (fetchFactsForAllPersons fetch persons).get? i = some (fetchFactsStep fetch p)) ∧
    (∀ p researchData, fetch p.getPersonID = .ok (some researchData) →
      researchData.personFacts.filterMap factToEvent ≠ [] →
      fetchFactsStep fetch p =
        { p with events := researchData.personFacts.filterMap factToEvent }) ∧
    (∀ p e, fetch p.getPersonID = .error e → fetchFactsStep fetch p = p) ∧
    (∀ p, fetch p.getPersonID = .ok none → fetchFactsStep fetch p = p) ∧
    (∀ p researchData, fetch p.getPersonID = .ok (some researchData) →
      researchData.personFacts.filterMap factToEvent = [] →
      fetchFactsStep fetch p = p) := by
  refine ⟨List.length_map _ _, ?_, ?_, ?_, ?_, ?_⟩
  · intro i p hp
    rw [fetchFactsForAllPersons, List.get?_map, hp]
    rfl
  · intro p researchData hf hne
    have hfacts : researchData.personFacts ≠ [] := by
      intro h
      rw [h] at hne
      exact hne rfl
    simp only [fetchFactsStep, hf]
    rw [if_neg hfacts]
    show (if researchData.personFacts.filterMap factToEvent = [] then p else _) = _
    rw [if_neg hne]
  · intro p e hf
    simp only [fetchFactsStep, hf]
  · intro p hf
    simp only [fetchFactsStep, hf]
  · intro p researchData hf hnil
    simp only [fetchFactsStep, hf]
    by_cases hfacts : researchData.personFacts = []
    · rw [if_pos hfacts]
    · rw [if_neg hfacts]
      show (if researchData.personFacts.filterMap factToEvent = [] then p else _) = _
      rw [if_pos hnil]

/-- Witness for C2 (amended) at concrete inputs: the fetched fact replaces the
person's event list; an erroring fetch leaves it unchanged. -/
theorem fetchFactsForAllPersons_replacement_semantics_witness :
    fetchFactsStep burialFetch personWithResidence =
      { personWithResidence with
          events := burialResearchData.personFacts.filterMap factToEvent } ∧
    fetchFactsStep (fun _ => .error "bad") personWithResidence = personWithResidence :=
  ⟨(fetchFactsForAllPersons_replacement_semantics burialFetch [personWithResidence]).2.2.1
      personWithResidence burialResearchData rfl (by decide),
   (fetchFactsForAllPersons_replacement_semantics (fun _ => .error "bad")
      [personWithResidence]).2.2.2.1 personWithResidence "bad" rfl⟩

/-- From `commands/download_tree.go` `getRelationshipGenderLabel`: the
male-specific label for gender `m`, the female-specific one for `f`, the
neutral one otherwise. -/
def getRelationshipGenderLabel (gender maleLabel femaleLabel neutralLabel : String) : String :=
  if gender = "m" then maleLabel
  else if gender = "f" then femaleLabel
  else neutralLabel

/-- Label written by `processChildEvents` for a child's qualifying event. -/
def childEventLabel (child : Person) (evt : Event) : String :=
  evt.type ++ " of " ++ getRelationshipGenderLabel child.gender "son" "daughter" "child" ++
    " " ++ child.getDisplayName

/-- Label written by `processSiblingEvents` for a sibling's qualifying event. -/
def siblingEventLabel (sibling : Person) (evt : Event) : String :=
  evt.type ++ " of " ++ getRelationshipGenderLabel sibling.gender "brother" "sister" "sibling" ++
    " " ++ sibling.getDisplayName

/-- Label written by `processRelativeDeathEvents` for a relative's death. -/
def relativeDeathLabel (relative : Person) (maleLabel femaleLabel neutralLabel : String) : String :=
  "Death of " ++ getRelationshipGenderLabel relative.gender maleLabel femaleLabel neutralLabel ++
    " " ++ relative.getDisplayName

/-- From `commands/download_tree.go` `processChildEvents`: for every child
resolvable in the person map, every `Birth` or `Death` event with a non-nil
date writes its date-to-label entry into the map. -/
def processChildEvents (childRefs : List RelationshipReference)
    (personMap : String → Option Person) (dateToEventType : String → Option String) :
    String → Option String :=
  childRefs.foldl
    (fun m childRef =>
      match personMap childRef.personID with
      | none => m
      | some child =>
        child.events.foldl
          (fun m evt =>
            match evt.date with
            | some dateStr =>
              if evt.type = Birth ∨ evt.type = Death then
                mapUpd m dateStr (childEventLabel child evt)
              else m
            | none => m) m) dateToEventType

/-- From `commands/download_tree.go` `hasSharedParent`: whether two parent
lists share at least one parent ID. -/
def hasSharedParent (myParents theirParents : List RelationshipReference) : Bool :=
  myParents.any (fun myParent =>
    theirParents.any (fun theirParent => myParent.personID == theirParent.personID))

/-- From `commands/download_tree.go` `processSiblingEvents`: for every other
person (sharing at least one parent with the focal person) every `Birth` or
`Death` event with a non-nil date writes its date-to-label entry. -/
def processSiblingEvents (personID : String) (rels : PersonRelationship)
    (persons : List Person) (relationships : String → Option PersonRelationship)
    (dateToEventType : String → Option String) : String → Option String :=
  if rels.parents = [] then dateToEventType
  else
    persons.foldl
      (fun m otherPerson =>
        if otherPerson.getPersonID = personID then m
        else
          match relationships otherPerson.getPersonID with
          | none => m
          | some otherRels =>
            if otherRels.parents = [] then m
            else if hasSharedParent rels.parents otherRels.parents then
              otherPerson.events.foldl
                (fun m evt =>
                  match evt.date with
                  | some dateStr =>
                    if evt.type = Birth ∨ evt.type = Death then
                      mapUpd m dateStr (siblingEventLabel otherPerson evt)
                    else m
                  | none => m) m
            else m) dateToEventType

/-- From `commands/download_tree.go` `processRelativeDeathEvents`: for every
relative (parent or spouse) resolvable in the person map, every `Death` event
with a non-nil date writes its date-to-label entry (`Birth` events of parents
and spouses are not processed). -/
def processRelativeDeathEvents (relativeRefs : List RelationshipReference)
    (personMap : String → Option Person) (dateToEventType : String → Option String)
    (maleLabel femaleLabel neutralLabel : String) : String → Option String :=
  relativeRefs.foldl
    (fun m relativeRef =>
      match personMap relativeRef.personID with
      | none => m
      | some relative =>
        relative.events.foldl
          (fun m evt =>
            match evt.date with
            | some dateStr =>
              if evt.type = Death then
                mapUpd m dateStr (relativeDeathLabel relative maleLabel femaleLabel neutralLabel)
              else m
            | none => m) m) dateToEventType

/-- From `commands/download_tree.go` `buildPersonMap`: Go maps each person ID
to a pointer into the persons slice; a pointer is embedded as the person's
index, resolved against the current state of the slice at lookup time. -/
def buildPersonIdx (persons : List Person) : String → Option Nat :=
  persons.enum.foldl (fun m ip => mapUpd m ip.2.getPersonID ip.1) mapEmpty

/-- From `commands/download_tree.go` `updateEmptyEvents`, the per-event
update: an event with an empty type and a non-nil date found in the date map
adopts the inferred type; every other event is untouched. -/
def inferEventUpdate (dateToEventType : String → Option String) (evt : Event) : Event :=
  if evt.type = "" then
    match evt.date with
    | some dateStr =>
      match dateToEventType dateStr with
      | some inferredType => { evt with type := inferredType }
      | none => evt
    | none => evt
  else evt

/-- From `commands/download_tree.go` `updateEmptyEvents`: update each event in
place and count the updates. -/
def updateEmptyEvents (person : Person) (dateToEventType : String → Option String) :
    Person × Nat :=
  ({ person with events := person.events.map (inferEventUpdate dateToEventType) },
   person.events.countP (fun evt =>
     evt.type == "" &&
       (match evt.date with
        | some dateStr => (dateToEventType dateStr).isSome
        | none => false)))

/-- From `commands/download_tree.go` `inferEventTypes`, the per-person map
construction: children first, then siblings, then parents (father/mother/
parent), then spouses (husband/wife/spouse), all writing into one map. -/
def buildDateToEventType (personID : String) (rels : PersonRelationship)
    (persons : List Person) (relationships : String → Option PersonRelationship)
    (personMap : String → Option Person) : String → Option String :=
  processRelativeDeathEvents rels.spouses personMap
    (processRelativeDeathEvents rels.parents personMap
      (processSiblingEvents personID rels persons relationships
        (processChildEvents rels.children personMap mapEmpty))
      "father" "mother" "parent")
    "husband" "wife" "spouse"

/-- From `commands/download_tree.go` `inferEventTypes`: for each person in
order, when the person has a relationship entry, build the date-to-label map
from its relations (reading relatives through the pointer map, i.e. the
current state of the slice) and update the person's empty events in place,
accumulating the count of inferred types. -/
def inferStep (relationships : String → Option PersonRelationship)
    (personIdx : String → Option Nat) (st : List Person × Nat) (i : Nat) :
    List Person × Nat :=
  match st.1.get? i with
  | none => st
  | some p =>
    match relationships p.getPersonID with
    | none => st
    | some rels =>
      let personMap := fun pid => (personIdx pid).bind st.1.get?
      let pc := updateEmptyEvents p
        (buildDateToEventType p.getPersonID rels st.1 relationships personMap)
      (st.1.set i pc.1, st.2 + pc.2)

def inferEventTypes (persons : List Person)
    (relationships : String → Option PersonRelationship) : List Person × Nat :=
  (List.range persons.length).foldl
    (inferStep relationships (buildPersonIdx persons)) (persons, 0)

/-- Apply a sequence of map writes in order (Go map assignment semantics). -/
def applyWrites {α : Type} : List (String × α) → (String → Option α) → String → Option α
  | [], m => m
  | kv :: ws, m => applyWrites ws (mapUpd m kv.1 kv.2)

/-- The value of the last write to a key in a write sequence, if any. -/
def lastWrite {α : Type} : List (String × α) → String → Option α
  | [], _ => none
  | kv :: ws, k =>
    match lastWrite ws k with
    | some v => some v
    | none => if kv.1 = k then some kv.2 else none

/-- Left-biased choice on options. -/
def orO {α : Type} : Option α → Option α → Option α
  | some a, _ => some a
  | none, b => b

lemma orO_none_right {α : Type} : ∀ x : Option α, orO x none = x := by
  intro x; cases x <;> rfl

lemma applyWrites_apply {α : Type} :
    ∀ (ws : List (String × α)) (m : String → Option α) (k : String),
      applyWrites ws m k = orO (lastWrite ws k) (m k) := by
  intro ws
  induction ws with
  | nil => intro m k; rfl
  | cons kv ws ih =>
    intro m k
    rw [applyWrites, ih]
    have hcons : lastWrite (kv :: ws) k =
        match lastWrite ws k with
        | some v => some v
        | none => if kv.1 = k then some kv.2 else none := rfl
    cases hws : lastWrite ws k with
    | some v =>
      rw [hcons, hws]
      rfl
    | none =>
      rw [hcons, hws]
      show orO none (if k = kv.1 then some kv.2 else m k) =
        orO (if kv.1 = k then some kv.2 else none) (m k)
      by_cases h : k = kv.1
      · rw [if_pos h, if_pos h.symm]
        rfl
      · rw [if_neg h, if_neg (fun hh => h hh.symm)]

lemma applyWrites_append {α : Type} :
    ∀ (ws1 ws2 : List (String × α)) (m : String → Option α),
      applyWrites (ws1 ++ ws2) m = applyWrites ws2 (applyWrites ws1 m) := by
  intro ws1
  induction ws1 with
  | nil => intro ws2 m; rfl
  | cons kv ws ih =>
    intro ws2 m
    rw [List.cons_append, applyWrites, applyWrites, ih]

/-- Date-to-label writes of one relation's `Birth`/`Death` events. -/
def birthDeathWrites (labelOf : Event → String) (events : List Event) :
    List (String × String) :=
  events.filterMap (fun evt =>
    match evt.date with
    | some dateStr =>
      if evt.type = Birth ∨ evt.type = Death then some (dateStr, labelOf evt) else none
    | none => none)

/-- Date-to-label writes of one relative's `Death` events. -/
def deathWrites (label : String) (events : List Event) : List (String × String) :=
  events.filterMap (fun evt =>
    match evt.date with
    | some dateStr => if evt.type = Death then some (dateStr, label) else none
    | none => none)

/-- All writes of `processChildEvents`, in order. -/
def childWrites (childRefs : List RelationshipReference)
    (personMap : String → Option Person) : List (String × String) :=
  childRefs.flatMap (fun childRef =>
    match personMap childRef.personID with
    | none => []
    | some child => birthDeathWrites (childEventLabel child) child.events)

/-- All writes of `processSiblingEvents`, in order. -/
def siblingWrites (personID : String) (rels : PersonRelationship)
    (persons : List Person) (relationships : String → Option PersonRelationship) :
    List (String × String) :=
  if rels.parents = [] then []
  else
    persons.flatMap (fun otherPerson =>
      if otherPerson.getPersonID = personID then []
      else
        match relationships otherPerson.getPersonID with
        | none => []
        | some otherRels =>
          if otherRels.parents = [] then []
          else if hasSharedParent rels.parents otherRels.parents then
            birthDeathWrites (siblingEventLabel otherPerson) otherPerson.events
          else [])

/-- All writes of `processRelativeDeathEvents`, in order. -/
def relativeDeathWrites (relativeRefs : List RelationshipReference)
    (personMap : String → Option Person)
    (maleLabel femaleLabel neutralLabel : String) : List (String × String) :=
  relativeRefs.flatMap (fun relativeRef =>
    match personMap relativeRef.personID with
    | none => []
    | some relative =>
      deathWrites (relativeDeathLabel relative maleLabel femaleLabel neutralLabel)
        relative.events)

lemma foldl_birthDeath_eq_applyWrites (labelOf : Event → String) :
    ∀ (events : List Event) (m : String → Option String),
      events.foldl
        (fun m evt =>
          match evt.date with
          | some dateStr =>
            if evt.type = Birth ∨ evt.type = Death then mapUpd m dateStr (labelOf evt) else m
          | none => m) m
      = applyWrites (birthDeathWrites labelOf events) m := by
  intro events
  induction events with
  | nil => intro m; rfl
  | cons evt rest ih =>
    intro m
    cases hd : evt.date with
    | none =>
      simp only [List.foldl_cons, birthDeathWrites, List.filterMap_cons, hd]
      exact ih m
    | some dateStr =>
      by_cases ht : evt.type = Birth ∨ evt.type = Death
      · simp only [List.foldl_cons, birthDeathWrites, List.filterMap_cons, hd, if_pos ht]
        rw [applyWrites]
        exact ih _
      · simp only [List.foldl_cons, birthDeathWrites, List.filterMap_cons, hd, if_neg ht]
        exact ih m

lemma foldl_death_eq_applyWrites (label : String) :
    ∀ (events : List Event) (m : String → Option String),
      events.foldl
        (fun m evt =>
          match evt.date with
          | some dateStr => if evt.type = Death then mapUpd m dateStr label else m
          | none => m) m
      = applyWrites (deathWrites label events) m := by
  intro events
  induction events with
  | nil => intro m; rfl
  | cons evt rest ih =>
    intro m
    cases hd : evt.date with
    | none =>
      simp only [List.foldl_cons, deathWrites, List.filterMap_cons, hd]
      exact ih m
    | some dateStr =>
      by_cases ht : evt.type = Death
      · simp only [List.foldl_cons, deathWrites, List.filterMap_cons, hd, if_pos ht]
        rw [applyWrites]
        exact ih _
      · simp only [List.foldl_cons, deathWrites, List.filterMap_cons, hd, if_neg ht]
        exact ih m

lemma processChildEvents_eq_applyWrites
    (personMap : String → Option Person) :
    ∀ (childRefs : List RelationshipReference) (m : String → Option String),
      processChildEvents childRefs personMap m =
        applyWrites (childWrites childRefs personMap) m := by
  intro childRefs
  induction childRefs with
  | nil => intro m; rfl
  | cons childRef rest ih =>
    intro m
    rw [processChildEvents, List.foldl_cons, childWrites, List.flatMap_cons, applyWrites_append]
    cases hc : personMap childRef.personID with
    | none =>
      simp only [hc]
      exact ih m
    | some child =>
      simp only [hc]
      rw [foldl_birthDeath_eq_applyWrites]
      exact ih (applyWrites (birthDeathWrites (childEventLabel child) child.events) m)

lemma processRelativeDeathEvents_eq_applyWrites
    (personMap : String → Option Person) (maleLabel femaleLabel neutralLabel : String) :
    ∀ (relativeRefs : List RelationshipReference) (m : String → Option String),
      processRelativeDeathEvents relativeRefs personMap m maleLabel femaleLabel neutralLabel =
        applyWrites (relativeDeathWrites relativeRefs personMap maleLabel femaleLabel neutralLabel)
          m := by
  intro relativeRefs
  induction relativeRefs with
  | nil => intro m; rfl
  | cons relativeRef rest ih =>
    intro m
    rw [processRelativeDeathEvents, List.foldl_cons, relativeDeathWrites, List.flatMap_cons,
      applyWrites_append]
    cases hc : personMap relativeRef.personID with
    | none =>
      simp only [hc]
      exact ih m
    | some relative =>
      simp only [hc]
      rw [foldl_death_eq_applyWrites]
      exact ih (applyWrites
        (deathWrites (relativeDeathLabel relative maleLabel femaleLabel neutralLabel)
          relative.events) m)

lemma siblingFold_eq_applyWrites (personID : String) (rels : PersonRelationship)
    (relationships : String → Option PersonRelationship) :
    ∀ (persons : List Person) (m : String → Option String),
      persons.foldl
        (fun m otherPerson =>
          if otherPerson.getPersonID = personID then m
          else
            match relationships otherPerson.getPersonID with
            | none => m
            | some otherRels =>
              if otherRels.parents = [] then m
              else if hasSharedParent rels.parents otherRels.parents then
                otherPerson.events.foldl
                  (fun m evt =>
                    match evt.date with
                    | some dateStr =>
                      if evt.type = Birth ∨ evt.type = Death then
                        mapUpd m dateStr (siblingEventLabel otherPerson evt)
                      else m
                    | none => m) m
              else m) m
      = applyWrites
          (persons.flatMap (fun otherPerson =>
            if otherPerson.getPersonID = personID then []
            else
              match relationships otherPerson.getPersonID with
              | none => []
              | some otherRels =>
                if otherRels.parents = [] then []
                else if hasSharedParent rels.parents otherRels.parents then
                  birthDeathWrites (siblingEventLabel otherPerson) otherPerson.events
                else [])) m := by
  intro persons
  induction persons with
  | nil => intro m; rfl
  | cons otherPerson rest ih =>
    intro m
    rw [List.foldl_cons, List.flatMap_cons, applyWrites_append]
    by_cases hid : otherPerson.getPersonID = personID
    · simp only [if_pos hid]
      exact ih m
    · simp only [if_neg hid]
      cases hr : relationships otherPerson.getPersonID with
      | none => exact ih m
      | some otherRels =>
        by_cases hp : otherRels.parents = []
        · simp only [if_pos hp]
          exact ih m
        · simp only [if_neg hp]
          by_cases hs : hasSharedParent rels.parents otherRels.parents = true
          · simp only [if_pos hs]
            rw [foldl_birthDeath_eq_applyWrites]
            exact ih (applyWrites
              (birthDeathWrites (siblingEventLabel otherPerson) otherPerson.events) m)
          · simp only [if_neg hs]
            exact ih m

lemma processSiblingEvents_eq_applyWrites (personID : String) (rels : PersonRelationship)
    (persons : List Person) (relationships : String → Option PersonRelationship)
    (m : String → Option String) :
    processSiblingEvents personID rels persons relationships m =
      applyWrites (siblingWrites personID rels persons relationships) m := by
  rw [processSiblingEvents, siblingWrites]
  by_cases hp : rels.parents = []
  · rw [if_pos hp, if_pos hp]
    rfl
  · rw [if_neg hp, if_neg hp]
    exact siblingFold_eq_applyWrites personID rels relationships persons m

/-- C8: the per-person date-to-label map of `inferEventTypes` is built by a
fixed processing order — children, then siblings, then parents, then spouses —
each category writing into the same map, so for every date the label finally
adopted is the last write of the latest category that wrote that date: spouses
override parents, which override siblings, which override children.  This is a
total characterization by a pure function of the inputs, so `inferEventTypes`
is deterministic for a fixed population and relationship map. -/
theorem inferEventTypes_category_precedence
    (personID : String) (rels : PersonRelationship) (persons : List Person)
    (relationships : String → Option PersonRelationship)
    (personMap : String → Option Person) (dateStr : String) :
    buildDateToEventType personID rels persons relationships personMap dateStr =
      orO (lastWrite (relativeDeathWrites rels.spouses personMap "husband" "wife" "spouse")
          dateStr)
        (orO (lastWrite (relativeDeathWrites rels.parents personMap "father" "mother" "parent")
            dateStr)
          (orO (lastWrite (siblingWrites personID rels persons relationships) dateStr)
            (lastWrite (childWrites rels.children personMap) dateStr))) := by
  rw [buildDateToEventType,
    processChildEvents_eq_applyWrites personMap rels.children mapEmpty,
    processSiblingEvents_eq_applyWrites,
    processRelativeDeathEvents_eq_applyWrites personMap "father" "mother" "parent",
    processRelativeDeathEvents_eq_applyWrites personMap "husband" "wife" "spouse",
    applyWrites_apply, applyWrites_apply, applyWrites_apply, applyWrites_apply]
  rw [show (mapEmpty : String → Option String) dateStr = none from rfl, orO_none_right]

/-- Fixture for C8: a daughter who died in 1950. -/
def deceasedChild : Person :=
  { pid := "ch1", gender := "f", names := [{ givenName := "Cora", surname := "Doe" }],
    events := [{ type := "Death", date := some "1950" }] }

/-- Fixture for C8: a wife who also died in 1950. -/
def deceasedSpouse : Person :=
  { pid := "sp1", gender := "f", names := [{ givenName := "Wilma", surname := "Doe" }],
    events := [{ type := "Death", date := some "1950" }] }

/-- Fixture for C8: pointer map resolving the child and the spouse. -/
def precedencePersonMap : String → Option Person :=
  mapUpd (mapUpd mapEmpty "ch1" deceasedChild) "sp1" deceasedSpouse

/-- Fixture for C8: the focal person has the child and the spouse above. -/
def precedenceRels : PersonRelationship :=
  { personID := "p1", children := [⟨"ch1", "Cora Doe"⟩], spouses := [⟨"sp1", "Wilma Doe"⟩] }

/-- Witness for C8 at a concrete input: the child and the spouse both write a
label for 1950; the spouses category is processed last, so its label wins. -/
theorem inferEventTypes_category_precedence_witness :
    buildDateToEventType "p1" precedenceRels [] mapEmpty precedencePersonMap "1950" =
      some "Death of wife Wilma Doe" := by
  rw [inferEventTypes_category_precedence]
  decide

/-- Fixture for C3: a father with a `Birth` event dated 1900. -/
def fatherWithBirth : Person :=
  { pid := "par1", gender := "m", names := [{ givenName := "Par", surname := "Ent" }],
    events := [{ type := "Birth", date := some "1900" }] }

/-- C3 counterexample: the focal person's father has a `Birth` event dated
1900 with a non-nil date, yet the date-to-label map built by
`inferEventTypes` has no entry for 1900: `processRelativeDeathEvents`
processes only `Death` events of parents and spouses, so parents' and
spouses' `Birth` events contribute nothing, contradicting the claim that both
`Birth` and `Death` events contribute in every processed category. -/
theorem parents_birth_event_not_contributing_counterexample :
    buildDateToEventType "p1"
      { personID := "p1", parents := [⟨"par1", "Par Ent"⟩] } []
      mapEmpty (mapUpd mapEmpty "par1" fatherWithBirth) "1900" = none := by
  decide

lemma mem_birthDeathWrites (labelOf : Event → String) (events : List Event)
    (dateStr label : String) :
    (dateStr, label) ∈ birthDeathWrites labelOf events ↔
      ∃ evt ∈ events, (evt.type = Birth ∨ evt.type = Death) ∧
        evt.date = some dateStr ∧ label = labelOf evt := by
  rw [birthDeathWrites, List.mem_filterMap]
  constructor
  · rintro ⟨evt, hm, hf⟩
    cases hd : evt.date with
    | none =>
      simp only [hd] at hf
      exact absurd hf (by simp)
    | some d =>
      simp only [hd] at hf
      by_cases ht : evt.type = Birth ∨ evt.type = Death
      · rw [if_pos ht] at hf
        simp only [Option.some.injEq, Prod.mk.injEq] at hf
        exact ⟨evt, hm, ht, by rw [hd, hf.1], hf.2.symm⟩
      · rw [if_neg ht] at hf
        exact absurd hf (by simp)
  · rintro ⟨evt, hm, ht, hd, hl⟩
    refine ⟨evt, hm, ?_⟩
    simp only [hd]
    rw [if_pos ht, hl]

lemma mem_deathWrites (label0 : String) (events : List Event) (dateStr label : String) :
    (dateStr, label) ∈ deathWrites label0 events ↔
      ∃ evt ∈ events, evt.type = Death ∧ evt.date = some dateStr ∧ label = label0 := by
  rw [deathWrites, List.mem_filterMap]
  constructor
  · rintro ⟨evt, hm, hf⟩
    cases hd : evt.date with
    | none =>
      simp only [hd] at hf
      exact absurd hf (by simp)
    | some d =>
      simp only [hd] at hf
      by_cases ht : evt.type = Death
      · rw [if_pos ht] at hf
        simp only [Option.some.injEq, Prod.mk.injEq] at hf
        exact ⟨evt, hm, ht, by rw [hd, hf.1], hf.2.symm⟩
      · rw [if_neg ht] at hf
        exact absurd hf (by simp)
  · rintro ⟨evt, hm, ht, hd, hl⟩
    refine ⟨evt, hm, ?_⟩
    simp only [hd]
    rw [if_pos ht, hl]

lemma mem_childWrites (childRefs : List RelationshipReference)
    (personMap : String → Option Person) (dateStr label : String) :
    (dateStr, label) ∈ childWrites childRefs personMap ↔
      ∃ childRef ∈ childRefs, ∃ child, personMap childRef.personID = some child ∧
        (dateStr, label) ∈ birthDeathWrites (childEventLabel child) child.events := by
  rw [childWrites, List.mem_flatMap]
  constructor
  · rintro ⟨ref, hr, hm⟩
    cases hc : personMap ref.personID with
    | none =>
      simp only [hc] at hm
      exact absurd hm (List.not_mem_nil _)
    | some child =>
      simp only [hc] at hm
      exact ⟨ref, hr, child, hc, hm⟩
  · rintro ⟨ref, hr, child, hc, hm⟩
    refine ⟨ref, hr, ?_⟩
    simp only [hc]
    exact hm

lemma mem_relativeDeathWrites (relativeRefs : List RelationshipReference)
    (personMap : String → Option Person) (maleLabel femaleLabel neutralLabel : String)
    (dateStr label : String) :
    (dateStr, label) ∈ relativeDeathWrites relativeRefs personMap
        maleLabel femaleLabel neutralLabel ↔
      ∃ relativeRef ∈ relativeRefs, ∃ relative,
        personMap relativeRef.personID = some relative ∧
        (dateStr, label) ∈
          deathWrites (relativeDeathLabel relative maleLabel femaleLabel neutralLabel)
            relative.events := by
  rw [relativeDeathWrites, List.mem_flatMap]
  constructor
  · rintro ⟨ref, hr, hm⟩
    cases hc : personMap ref.personID with
    | none =>
      simp only [hc] at hm
      exact absurd hm (List.not_mem_nil _)
    | some relative =>
      simp only [hc] at hm
      exact ⟨ref, hr, relative, hc, hm⟩
  · rintro ⟨ref, hr, relative, hc, hm⟩
    refine ⟨ref, hr, ?_⟩
    simp only [hc]
    exact hm

lemma mem_siblingWrites (personID : String) (rels : PersonRelationship)
    (persons : List Person) (relationships : String → Option PersonRelationship)
    (dateStr label : String) :
    (dateStr, label) ∈ siblingWrites personID rels persons relationships ↔
      (rels.parents ≠ [] ∧ ∃ otherPerson ∈ persons,
        otherPerson.getPersonID ≠ personID ∧
        ∃ otherRels, relationships otherPerson.getPersonID = some otherRels ∧
          otherRels.parents ≠ [] ∧ hasSharedParent rels.parents otherRels.parents = true ∧
          (dateStr, label) ∈
            birthDeathWrites (siblingEventLabel otherPerson) otherPerson.events) := by
  rw [siblingWrites]
  by_cases hp : rels.parents = []
  · rw [if_pos hp]
    constructor
    · intro hm
      exact absurd hm (List.not_mem_nil _)
    · rintro ⟨hne, _⟩
      exact absurd hp hne
  · rw [if_neg hp, List.mem_flatMap]
    constructor
    · rintro ⟨op, hop, hm⟩
      by_cases hid : op.getPersonID = personID
      · rw [if_pos hid] at hm
        exact absurd hm (List.not_mem_nil _)
      · rw [if_neg hid] at hm
        cases hrel : relationships op.getPersonID with
        | none =>
          simp only [hrel] at hm
          exact absurd hm (List.not_mem_nil _)
        | some otherRels =>
          simp only [hrel] at hm
          by_cases hp2 : otherRels.parents = []
          · rw [if_pos hp2] at hm
            exact absurd hm (List.not_mem_nil _)
          · rw [if_neg hp2] at hm
            by_cases hs : hasSharedParent rels.parents otherRels.parents = true
            · rw [if_pos hs] at hm
              exact ⟨hp, op, hop, hid, otherRels, hrel, hp2, hs, hm⟩
            · rw [if_neg hs] at hm
              exact absurd hm (List.not_mem_nil _)
    · rintro ⟨_, op, hop, hid, otherRels, hrel, hp2, hs, hm⟩
      refine ⟨op, hop, ?_⟩
      rw [if_neg hid]
      simp only [hrel]
      rw [if_neg hp2, if_pos hs]
      exact hm

/-- C3 (amended): in the per-person date-to-label map of `inferEventTypes`,
every category pass leaves entries at a date either as the last label the
category itself wrote for that date or as the incoming entry; the labels a
category writes are exactly: for children and siblings, one per `Birth` or
`Death` event with a non-nil date of the relation, of the form
`<EventKind> of <relation-label> <name>` with the gender-qualified relation
label (son/daughter/child, brother/sister/sibling); for parents and spouses,
one per `Death` event only (their `Birth` events contribute nothing), of the
form `Death of <relation-label> <name>` (father/mother/parent,
husband/wife/spouse via the label arguments); unknown gender falls back to the
neutral label inside `getRelationshipGenderLabel`. -/
theorem relation_event_label_contributions
    (personMap : String → Option Person) (childRefs relativeRefs : List RelationshipReference)
    (personID : String) (rels : PersonRelationship) (persons : List Person)
    (relationships : String → Option PersonRelationship)
    (maleLabel femaleLabel neutralLabel : String)
    (m : String → Option String) (dateStr label : String) :
    (processChildEvents childRefs personMap m dateStr =
      orO (lastWrite (childWrites childRefs personMap) dateStr) (m dateStr)) ∧
    (processSiblingEvents personID rels persons relationships m dateStr =
      orO (lastWrite (siblingWrites personID rels persons relationships) dateStr)
        (m dateStr)) ∧
    (processRelativeDeathEvents relativeRefs personMap m maleLabel femaleLabel neutralLabel
        dateStr =
      orO (lastWrite (relativeDeathWrites relativeRefs personMap
          maleLabel femaleLabel neutralLabel) dateStr) (m dateStr)) ∧
    ((dateStr, label) ∈ childWrites childRefs personMap ↔
      ∃ childRef ∈ childRefs, ∃ child, personMap childRef.personID = some child ∧
        ∃ evt ∈ child.events, (evt.type = Birth ∨ evt.type = Death) ∧
          evt.date = some dateStr ∧ label = childEventLabel child evt) ∧
    ((dateStr, label) ∈ siblingWrites personID rels persons relationships ↔
      (rels.parents ≠ [] ∧ ∃ otherPerson ∈ persons,
        otherPerson.getPersonID ≠ personID ∧
        ∃ otherRels, relationships otherPerson.getPersonID = some otherRels ∧
          otherRels.parents ≠ [] ∧ hasSharedParent rels.parents otherRels.parents = true ∧
          ∃ evt ∈ otherPerson.events, (evt.type = Birth ∨ evt.type = Death) ∧
            evt.date = some dateStr ∧ label = siblingEventLabel otherPerson evt)) ∧
    ((dateStr, label) ∈ relativeDeathWrites relativeRefs personMap
        maleLabel femaleLabel neutralLabel ↔
      ∃ relativeRef ∈ relativeRefs, ∃ relative,
        personMap relativeRef.personID = some relative ∧
        ∃ evt ∈ relative.events, evt.type = Death ∧ evt.date = some dateStr ∧
          label = relativeDeathLabel relative maleLabel femaleLabel neutralLabel) := by
  refine ⟨?_, ?_, ?_, ?_, ?_, ?_⟩
  · rw [processChildEvents_eq_applyWrites, applyWrites_apply]
  · rw [processSiblingEvents_eq_applyWrites, applyWrites_apply]
  · rw [processRelativeDeathEvents_eq_applyWrites, applyWrites_apply]
  · exact (mem_childWrites childRefs personMap dateStr label).trans
      (exists_congr fun ref => and_congr_right fun _ =>
        exists_congr fun child => and_congr_right fun _ =>
          mem_birthDeathWrites (childEventLabel child) child.events dateStr label)
  · exact (mem_siblingWrites personID rels persons relationships dateStr label).trans
      (and_congr_right fun _ =>
        exists_congr fun op => and_congr_right fun _ => and_congr_right fun _ =>
          exists_congr fun otherRels => and_congr_right fun _ =>
            and_congr_right fun _ => and_congr_right fun _ =>
              mem_birthDeathWrites (siblingEventLabel op) op.events dateStr label)
  · exact (mem_relativeDeathWrites relativeRefs personMap maleLabel femaleLabel neutralLabel
        dateStr label).trans
      (exists_congr fun ref => and_congr_right fun _ =>
        exists_congr fun relative => and_congr_right fun _ =>
          mem_deathWrites _ relative.events dateStr label)

/-- Witness for C3 (amended) at concrete inputs: the daughter fixture's death
produces exactly the entry `(1950, Death of daughter Cora Doe)` among the
child writes, and the father fixture with only a `Birth` event produces no
parent write. -/
theorem relation_event_label_contributions_witness :
    ("1950", "Death of daughter Cora Doe") ∈
      childWrites [⟨"ch1", "Cora Doe"⟩] precedencePersonMap ∧
    ¬ ("1900", "Death of father Par Ent") ∈
      relativeDeathWrites [⟨"par1", "Par Ent"⟩] (mapUpd mapEmpty "par1" fatherWithBirth)
        "father" "mother" "parent" :=
  ⟨(relation_event_label_contributions precedencePersonMap [⟨"ch1", "Cora Doe"⟩] []
      "p1" precedenceRels [] mapEmpty "father" "mother" "parent" mapEmpty
      "1950" "Death of daughter Cora Doe").2.2.2.1.mpr
    ⟨⟨"ch1", "Cora Doe"⟩, by decide, deceasedChild, by decide,
      { type := "Death", date := some "1950" }, by decide, by decide, by decide, by decide⟩,
   fun hmem =>
    by
      have h := (relation_event_label_contributions
        (mapUpd mapEmpty "par1" fatherWithBirth) [] [⟨"par1", "Par Ent"⟩]
        "p1" precedenceRels [] mapEmpty "father" "mother" "parent" mapEmpty
        "1900" "Death of father Par Ent").2.2.2.2.2.mp hmem
      revert h
      decide⟩

/-- Frame relation on events: everything but the type is unchanged, and the
type is unchanged whenever it was non-empty or the date was nil. -/
def eventFrame (e eNew : Event) : Prop :=
  eNew.id = e.id ∧ eNew.date = e.date ∧ eNew.nps = e.nps ∧ eNew.description = e.description ∧
  (e.type ≠ "" → eNew.type = e.type) ∧ (e.date = none → eNew.type = e.type)

/-- Frame relation on persons: every field but the event list is unchanged,
and the events are pairwise `eventFrame`-related (so none is added, removed or
reordered). -/
def personFrame (p pNew : Person) : Prop :=
  pNew.gidV = p.gidV ∧ pNew.pid = p.pid ∧ pNew.names = p.names ∧
  pNew.givenName = p.givenName ∧ pNew.surname = p.surname ∧ pNew.gender = p.gender ∧
  pNew.isLiving = p.isLiving ∧ pNew.family = p.family ∧
  List.Forall₂ eventFrame p.events pNew.events

lemma eventFrame_refl (e : Event) : eventFrame e e :=
  ⟨rfl, rfl, rfl, rfl, fun _ => rfl, fun _ => rfl⟩

lemma eventFrame_trans (a b c : Event) (hab : eventFrame a b) (hbc : eventFrame b c) :
    eventFrame a c := by
  obtain ⟨h1, h2, h3, h4, h5, h6⟩ := hab
  obtain ⟨g1, g2, g3, g4, g5, g6⟩ := hbc
  refine ⟨g1.trans h1, g2.trans h2, g3.trans h3, g4.trans h4, ?_, ?_⟩
  · intro hne
    have hb := h5 hne
    have : b.type ≠ "" := by rw [hb]; exact hne
    exact (g5 this).trans hb
  · intro hdn
    have hb := h6 hdn
    have : b.date = none := by rw [h2, hdn]
    exact (g6 this).trans hb

lemma personFrame_refl (p : Person) : personFrame p p :=
  ⟨rfl, rfl, rfl, rfl, rfl, rfl, rfl, rfl, List.forall₂_same.mpr fun e _ => eventFrame_refl e⟩

lemma forall₂_trans_of {α : Type} {R : α → α → Prop}
    (htrans : ∀ a b c, R a b → R b c → R a c) :
    ∀ {xs ys zs : List α}, List.Forall₂ R xs ys → List.Forall₂ R ys zs →
      List.Forall₂ R xs zs := by
  intro xs ys zs h1
  induction h1 generalizing zs with
  | nil =>
    intro h2
    cases h2
    exact List.Forall₂.nil
  | cons h t ih =>
    intro h2
    cases h2 with
    | cons h2h h2t => exact List.Forall₂.cons (htrans _ _ _ h h2h) (ih h2t)

lemma personFrame_trans (a b c : Person) (hab : personFrame a b) (hbc : personFrame b c) :
    personFrame a c := by
  obtain ⟨h1, h2, h3, h4, h5, h6, h7, h8, h9⟩ := hab
  obtain ⟨g1, g2, g3, g4, g5, g6, g7, g8, g9⟩ := hbc
  exact ⟨g1.trans h1, g2.trans h2, g3.trans h3, g4.trans h4, g5.trans h5, g6.trans h6,
    g7.trans h7, g8.trans h8, forall₂_trans_of eventFrame_trans h9 g9⟩

lemma inferEventUpdate_eventFrame (m : String → Option String) (e : Event) :
    eventFrame e (inferEventUpdate m e) := by
  rw [inferEventUpdate]
  by_cases ht : e.type = ""
  · rw [if_pos ht]
    cases hd : e.date with
    | none => exact eventFrame_refl e
    | some dateStr =>
      show eventFrame e (match m dateStr with
        | some inferredType =>
          { id := e.id, type := inferredType, date := some dateStr, nps := e.nps,
            description := e.description }
        | none => e)
      cases hm : m dateStr with
      | none => exact eventFrame_refl e
      | some inferredType =>
        refine ⟨rfl, hd.symm, rfl, rfl, ?_, ?_⟩
        · intro hne
          exact absurd ht hne
        · intro hdn
          rw [hd] at hdn
          exact absurd hdn (by simp)
  · rw [if_neg ht]
    exact eventFrame_refl e

lemma updateEmptyEvents_personFrame (p : Person) (m : String → Option String) :
    personFrame p (updateEmptyEvents p m).1 := by
  refine ⟨rfl, rfl, rfl, rfl, rfl, rfl, rfl, rfl, ?_⟩
  show List.Forall₂ eventFrame p.events (p.events.map (inferEventUpdate m))
  rw [List.forall₂_map_right_iff]
  exact List.forall₂_same.mpr fun e _ => inferEventUpdate_eventFrame m e

lemma forall₂_set_of_rel {α : Type} {R : α → α → Prop}
    (htrans : ∀ a b c, R a b → R b c → R a c)
    {xs ys : List α} {i : Nat} {p q : α}
    (h : List.Forall₂ R xs ys) (hget : ys.get? i = some p) (hpq : R p q) :
    List.Forall₂ R xs (ys.set i q) := by
  rw [List.forall₂_iff_get] at h ⊢
  obtain ⟨hlen, hR⟩ := h
  refine ⟨by rw [List.length_set]; exact hlen, ?_⟩
  intro j h1 h2
  have hj : j < ys.length := by rw [List.length_set] at h2; exact h2
  by_cases hij : i = j
  · subst hij
    have hyp : ys.get ⟨i, hj⟩ = p := by
      rw [List.get?_eq_get hj] at hget
      exact Option.some.inj hget
    have hset : (ys.set i q).get ⟨i, h2⟩ = q := List.get_set_eq h2
    rw [hset]
    have hRip : R (xs.get ⟨i, h1⟩) p := by rw [← hyp]; exact hR i h1 hj
    exact htrans _ _ _ hRip hpq
  · rw [List.get_set_ne hij h2]
    exact hR j h1 hj

/-- C6: `inferEventTypes` mutates only the `Type` field of events whose type
is empty and whose date is non-nil: for every person, every other field and
every event's date, place structure, description and id are unchanged, no
event or person is added or removed, and any event with a non-empty type or a
nil date keeps its type. -/
theorem inferEventTypes_frame_effect (persons : List Person)
    (relationships : String → Option PersonRelationship) :
    List.Forall₂ personFrame persons (inferEventTypes persons relationships).1 := by
  rw [inferEventTypes]
  refine List.foldlRecOn (motive := fun (st : List Person × Nat) => List.Forall₂ personFrame persons st.1) _ _ _
    (List.forall₂_same.mpr fun p _ => personFrame_refl p) ?_
  intro st hst i hi
  rw [inferStep]
  cases hp : st.1.get? i with
  | none => exact hst
  | some p =>
    show List.Forall₂ personFrame persons
      ((match relationships p.getPersonID with
        | none => st
        | some rels =>
          let personMap := fun pid => (buildPersonIdx persons pid).bind st.1.get?
          let pc := updateEmptyEvents p
            (buildDateToEventType p.getPersonID rels st.1 relationships personMap)
          (st.1.set i pc.1, st.2 + pc.2)) : List Person × Nat).1
    cases hr : relationships p.getPersonID with
    | none => exact hst
    | some rels =>
      exact forall₂_set_of_rel personFrame_trans hst hp (updateEmptyEvents_personFrame p _)

/-- From `pkg/ancestry` `FactEditData` (the fields `downloadSource` sets; the
remaining fields of the Go struct are never written on this path and stay
zero-valued). -/
structure FactEditData where
  citationID : String := ""
  databaseID : String := ""
  recordID : String := ""
  sourceID : String := ""
  citationTitle : String := ""
  recordImageUrl : String := ""
  recordImagePreviewUrl : String := ""
  localMediaFilePath : String := ""
deriving DecidableEq

/-- From `commands/utils_download.go` `ExtractCitationIDs`: a string value is
split on commas and whitespace; an array is handled element-wise for its
string members; anything else yields nothing. -/
def extractCitationIDs (fact : PersonFactDetail) : List String :=
  match fact.sourceCitationIDs with
  | .nil => []
  | .str v => if v ≠ "" then goFields (goReplaceChar v ',' ' ') else []
  | .arr items =>
    items.flatMap (fun item =>
      match item with
      | .str s => goFields (goReplaceChar s ',' ' ')
      | .other => [])

/-- From `commands/download_tree.go` `processFacts`: the per-person map from
citation ID to its `PersonSources` entry (later entries overwrite earlier
ones). -/
def buildPersonSourcesMap (researchData : ResearchData) :
    String → Option PersonSourceDetail :=
  researchData.personSources.foldl (fun m ps => mapUpd m ps.citationId ps) mapEmpty

/-- From `commands/download_tree.go` `downloadSource`: no `PersonSourceDetail`
for the citation means no materialization (`nil`); otherwise the metadata is
captured and, when a record image URL is present, the image is downloaded
(`DownloadAndSaveRecordImage`, whose transport is the oracle `dlImage`
returning the local path, empty on failure). -/
def downloadSource (dlImage : String → String → String)
    (personSourcesMap : String → Option PersonSourceDetail) (cid : String) :
    Option FactEditData :=
  match personSourcesMap cid with
  | none => none
  | some psDetail =>
    let sourceData : FactEditData :=
      { citationID := psDetail.citationId, databaseID := psDetail.databaseId,
        recordID := psDetail.recordId, sourceID := psDetail.sourceId,
        citationTitle := psDetail.title, recordImageUrl := psDetail.recordImageUrl,
        recordImagePreviewUrl := psDetail.recordImagePreviewUrl }
    if psDetail.recordImageUrl ≠ "" then
      if dlImage psDetail.recordImageUrl cid ≠ "" then
        some { sourceData with localMediaFilePath := dlImage psDetail.recordImageUrl cid }
      else some sourceData
    else some sourceData

/-- Run-wide state of the source-download pass: the `downloadedSources` map of
`DownloadSources`, plus an instrumentation log of every `downloadSource`
invocation `(citation ID, returned non-nil)`. -/
structure SourceState where
  downloadedSources : String → Option FactEditData
  callLog : List (String × Bool)

/-- The state at the start of a run: empty map, no calls. -/
def initialSourceState : SourceState :=
  { downloadedSources := mapEmpty, callLog := [] }

/-- From `commands/download_tree.go` `processFacts`, the body of the citation
loop: trim the ID, skip empties and per-person repeats, record the ID for the
person, and materialize through `downloadSource` only when the run-wide map
has no entry, storing the result only when it is non-nil. -/
def processFactsStep (dlImage : String → String → String)
    (personSourcesMap : String → Option PersonSourceDetail)
    (acc : List String × (String → Bool) × SourceState) (cid0 : String) :
    List String × (String → Bool) × SourceState :=
  if goTrimSpace cid0 = "" then acc
  else if acc.2.1 (goTrimSpace cid0) then acc
  else
    (acc.1 ++ [goTrimSpace cid0],
     fun x => if x = goTrimSpace cid0 then true else acc.2.1 x,
     match acc.2.2.downloadedSources (goTrimSpace cid0) with
     | some _ => acc.2.2
     | none =>
       match downloadSource dlImage personSourcesMap (goTrimSpace cid0) with
       | some sourceData =>
         { downloadedSources :=
             mapUpd acc.2.2.downloadedSources (goTrimSpace cid0) sourceData,
           callLog := acc.2.2.callLog ++ [(goTrimSpace cid0, true)] }
       | none =>
         { acc.2.2 with callLog := acc.2.2.callLog ++ [(goTrimSpace cid0, false)] })

/-- From `commands/download_tree.go` `processFacts`: iterate over all citation
IDs of all facts (in order), maintaining the per-person unique set and the
run-wide `downloadedSources` map; returns the person's citation ID list and
the updated run-wide state. -/
def processFacts (dlImage : String → String → String) (researchData : ResearchData)
    (st : SourceState) : List String × SourceState :=
  ((researchData.personFacts.flatMap extractCitationIDs).foldl
      (processFactsStep dlImage (buildPersonSourcesMap researchData))
      ([], (fun _ => false), st)
    |> fun res => (res.1, res.2.2))

/-- From `commands/download_tree.go` `processAllPersons` /
`processPersonForSources`: persons are processed in order; a person whose
facts fetch failed or produced no facts leaves the run-wide state untouched
(embedded as `none`), every other person runs `processFacts`. -/
def runSourceDownload (dlImage : String → String → String) :
    List (Option ResearchData) → SourceState → SourceState
  | [], st => st
  | researchData? :: rest, st =>
    match researchData? with
    | none => runSourceDownload dlImage rest st
    | some researchData =>
      if researchData.personFacts = [] then runSourceDownload dlImage rest st
      else runSourceDownload dlImage rest (processFacts dlImage researchData st).2

/-- Invariant of the source pass for a citation ID: at most one successful
materialization has been logged, and none while the run-wide map has no entry
for the ID. -/
def sourceInv (cid : String) (st : SourceState) : Prop :=
  st.callLog.countP (fun e => e.1 == cid && e.2) ≤ 1 ∧
  (st.downloadedSources cid = none →
    st.callLog.countP (fun e => e.1 == cid && e.2) = 0)

lemma countP_singleton_true_ne {x cid : String} (hc : x ≠ cid) :
    ([(x, true)] : List (String × Bool)).countP (fun e => e.1 == cid && e.2) = 0 := by
  rw [List.countP_cons, List.countP_nil, beq_eq_false_iff_ne.mpr hc]
  rfl

lemma countP_singleton_false {x cid : String} :
    ([(x, false)] : List (String × Bool)).countP (fun e => e.1 == cid && e.2) = 0 := by
  rw [List.countP_cons, List.countP_nil, Bool.and_false]
  rfl

lemma countP_singleton_true_self {x : String} :
    ([(x, true)] : List (String × Bool)).countP (fun e => e.1 == x && e.2) = 1 := by
  rw [List.countP_cons, List.countP_nil, beq_self_eq_true]
  rfl

lemma filter_singleton_ne {x cid : String} {b : Bool} (hc : x ≠ cid) :
    ([(x, b)] : List (String × Bool)).filter (fun e => e.1 == cid) = [] := by
  rw [List.filter_cons, beq_eq_false_iff_ne.mpr hc]
  rfl

lemma processFactsStep_preserves_sourceInv (dlImage : String → String → String)
    (personSourcesMap : String → Option PersonSourceDetail) (cid : String)
    (acc : List String × (String → Bool) × SourceState) (cid0 : String)
    (h : sourceInv cid acc.2.2) :
    sourceInv cid (processFactsStep dlImage personSourcesMap acc cid0).2.2 := by
  rw [processFactsStep]
  by_cases h1 : goTrimSpace cid0 = ""
  · rw [if_pos h1]; exact h
  · rw [if_neg h1]
    by_cases h2 : acc.2.1 (goTrimSpace cid0) = true
    · rw [if_pos h2]; exact h
    · rw [if_neg h2]
      cases hds : acc.2.2.downloadedSources (goTrimSpace cid0) with
      | some v => exact h
      | none =>
        cases hdl : downloadSource dlImage personSourcesMap (goTrimSpace cid0) with
        | some sourceData =>
          by_cases hc : goTrimSpace cid0 = cid
          · subst hc
            have hz := h.2 hds
            constructor
            · show (acc.2.2.callLog ++ [(goTrimSpace cid0, true)]).countP
                (fun e => e.1 == goTrimSpace cid0 && e.2) ≤ 1
              rw [List.countP_append, hz, countP_singleton_true_self]
            · intro hmap
              have hmap' : (if goTrimSpace cid0 = goTrimSpace cid0 then some sourceData
                  else acc.2.2.downloadedSources (goTrimSpace cid0)) = none := hmap
              rw [if_pos rfl] at hmap'
              exact Option.noConfusion hmap'
          · constructor
            · show (acc.2.2.callLog ++ [(goTrimSpace cid0, true)]).countP
                (fun e => e.1 == cid && e.2) ≤ 1
              rw [List.countP_append, countP_singleton_true_ne hc, Nat.add_zero]
              exact h.1
            · intro hmap
              have hmap' : (if cid = goTrimSpace cid0 then some sourceData
                  else acc.2.2.downloadedSources cid) = none := hmap
              rw [if_neg (fun hh => hc hh.symm)] at hmap'
              show (acc.2.2.callLog ++ [(goTrimSpace cid0, true)]).countP
                (fun e => e.1 == cid && e.2) = 0
              rw [List.countP_append, h.2 hmap', countP_singleton_true_ne hc]
        | none =>
          constructor
          · show (acc.2.2.callLog ++ [(goTrimSpace cid0, false)]).countP
              (fun e => e.1 == cid && e.2) ≤ 1
            rw [List.countP_append, countP_singleton_false, Nat.add_zero]
            exact h.1
          · intro hmap
            have hmap' : acc.2.2.downloadedSources cid = none := hmap
            show (acc.2.2.callLog ++ [(goTrimSpace cid0, false)]).countP
              (fun e => e.1 == cid && e.2) = 0
            rw [List.countP_append, h.2 hmap', countP_singleton_false]

lemma processFacts_preserves_sourceInv (dlImage : String → String → String)
    (researchData : ResearchData) (st : SourceState) (cid : String)
    (h : sourceInv cid st) :
    sourceInv cid (processFacts dlImage researchData st).2 := by
  show sourceInv cid
    ((researchData.personFacts.flatMap extractCitationIDs).foldl
      (processFactsStep dlImage (buildPersonSourcesMap researchData))
      ([], (fun _ => false), st)).2.2
  refine List.foldlRecOn
    (motive := fun (acc : List String × (String → Bool) × SourceState) =>
      sourceInv cid acc.2.2) _ _ _ h ?_
  intro acc hacc c hc
  exact processFactsStep_preserves_sourceInv dlImage _ cid acc c hacc

lemma runSourceDownload_preserves_sourceInv (dlImage : String → String → String)
    (cid : String) :
    ∀ (rds : List (Option ResearchData)) (st : SourceState),
      sourceInv cid st → sourceInv cid (runSourceDownload dlImage rds st) := by
  intro rds
  induction rds with
  | nil => intro st h; exact h
  | cons researchData? rest ih =>
    intro st h
    cases researchData? with
    | none => exact ih st h
    | some researchData =>
      show sourceInv cid (if researchData.personFacts = []
        then runSourceDownload dlImage rest st
        else runSourceDownload dlImage rest (processFacts dlImage researchData st).2)
      by_cases hf : researchData.personFacts = []
      · rw [if_pos hf]
        exact ih st h
      · rw [if_neg hf]
        exact ih _ (processFacts_preserves_sourceInv dlImage researchData st cid h)

/-- Invariant for the pure-lookup part: once the run-wide map holds an entry
for a citation ID, later processing neither calls `downloadSource` for it
again nor changes its entry. -/
def lookupInv (cid : String) (st0 st : SourceState) : Prop :=
  st.downloadedSources cid = st0.downloadedSources cid ∧
  st.callLog.filter (fun e => e.1 == cid) = st0.callLog.filter (fun e => e.1 == cid)

lemma processFactsStep_preserves_lookupInv (dlImage : String → String → String)
    (personSourcesMap : String → Option PersonSourceDetail) (cid : String)
    (st0 : SourceState) (hst0 : st0.downloadedSources cid ≠ none)
    (acc : List String × (String → Bool) × SourceState) (cid0 : String)
    (h : lookupInv cid st0 acc.2.2) :
    lookupInv cid st0 (processFactsStep dlImage personSourcesMap acc cid0).2.2 := by
  rw [processFactsStep]
  by_cases h1 : goTrimSpace cid0 = ""
  · rw [if_pos h1]; exact h
  · rw [if_neg h1]
    by_cases h2 : acc.2.1 (goTrimSpace cid0) = true
    · rw [if_pos h2]; exact h
    · rw [if_neg h2]
      cases hds : acc.2.2.downloadedSources (goTrimSpace cid0) with
      | some v => exact h
      | none =>
        have hc : goTrimSpace cid0 ≠ cid := by
          intro hh
          rw [hh] at hds
          rw [h.1] at hds
          exact hst0 hds
        have hfilter : ∀ b : Bool,
            (acc.2.2.callLog ++ [(goTrimSpace cid0, b)]).filter (fun e => e.1 == cid) =
              st0.callLog.filter (fun e => e.1 == cid) := by
          intro b
          rw [List.filter_append, filter_singleton_ne hc, List.append_nil]
          exact h.2
        cases hdl : downloadSource dlImage personSourcesMap (goTrimSpace cid0) with
        | some sourceData =>
          constructor
          · show (if cid = goTrimSpace cid0 then some sourceData
              else acc.2.2.downloadedSources cid) = st0.downloadedSources cid
            rw [if_neg (fun hh => hc hh.symm)]
            exact h.1
          · exact hfilter true
        | none =>
          exact ⟨h.1, hfilter false⟩

lemma processFacts_pure_lookup (dlImage : String → String → String)
    (researchData : ResearchData) (st : SourceState) (cid : String)
    (hst : st.downloadedSources cid ≠ none) :
    lookupInv cid st (processFacts dlImage researchData st).2 := by
  show lookupInv cid st
    ((researchData.personFacts.flatMap extractCitationIDs).foldl
      (processFactsStep dlImage (buildPersonSourcesMap researchData))
      ([], (fun _ => false), st)).2.2
  refine List.foldlRecOn
    (motive := fun (acc : List String × (String → Bool) × SourceState) =>
      lookupInv cid st acc.2.2) _ _ _ ⟨rfl, rfl⟩ ?_
  intro acc hacc c hc
  exact processFactsStep_preserves_lookupInv dlImage _ cid st hst acc c hacc

/-- C5 (amended): over a whole source-download run, at most one *successful*
materialization of any citation ID occurs (a success stores the result in
`downloadedSources`, and once an entry is present every later reference — by
the same or any later person — is a pure lookup: no further `downloadSource`
call for that ID and no change to its entry).  An *unsuccessful* attempt (no
`PersonSourceDetail` in the referencing person's payload) stores nothing, so a
later person referencing the same ID triggers another materialization call. -/
theorem downloadedSources_materializes_successfully_once
    (dlImage : String → String → String) (rds : List (Option ResearchData)) (cid : String) :
    ((runSourceDownload dlImage rds initialSourceState).callLog.countP
        (fun e => e.1 == cid && e.2)) ≤ 1 ∧
    (∀ (researchData : ResearchData) (st : SourceState),
      st.downloadedSources cid ≠ none →
      (processFacts dlImage researchData st).2.downloadedSources cid =
          st.downloadedSources cid ∧
      (processFacts dlImage researchData st).2.callLog.filter (fun e => e.1 == cid) =
          st.callLog.filter (fun e => e.1 == cid)) := by
  constructor
  · exact (runSourceDownload_preserves_sourceInv dlImage cid rds initialSourceState
      ⟨Nat.zero_le 1, fun _ => rfl⟩).1
  · intro researchData st hst
    exact processFacts_pure_lookup dlImage researchData st cid hst

/-- Fixture for C5: a fact citing `C100`. -/
def factCitingC100 : PersonFactDetail :=
  { typeString := "Residence", sourceCitationIDs := .str "C100" }

/-- Fixture for C5: a person payload citing `C100` with no `PersonSources`
entry for it, so its materialization returns nil. -/
def researchDataNoDetail : ResearchData :=
  { personFacts := [factCitingC100], personSources := [] }

/-- Fixture for C5: a person payload citing `C100` with a `PersonSources`
entry. -/
def researchDataWithDetail : ResearchData :=
  { personFacts := [factCitingC100],
    personSources := [{ citationId := "C100", title := "Census" }] }

/-- C5 counterexample: two persons reference citation `C100`; the first
person's payload has no `PersonSourceDetail` for it, so `downloadSource`
returns nil and nothing is stored, and the second person's reference is not a
pure lookup — a second materialization call occurs, contradicting the claim
that for every ID referenced by two or more persons exactly one
materialization call occurs with all subsequent references pure lookups. -/
theorem downloadSource_called_twice_counterexample :
    ((runSourceDownload (fun _ _ => "") [some researchDataNoDetail, some researchDataWithDetail]
        initialSourceState).callLog.countP (fun e => e.1 == "C100")) = 2 := by
  decide

/-- Witness for C5 (amended) at concrete inputs: a concrete run logs at most
one successful materialization of `C100`, and with `C100` already stored,
processing a further person referencing `C100` changes nothing for it. -/
theorem downloadedSources_materializes_successfully_once_witness :
    (((runSourceDownload (fun _ _ => "")
        [some researchDataNoDetail, some researchDataWithDetail]
        initialSourceState).callLog.countP (fun e => e.1 == "C100" && e.2)) ≤ 1) ∧
    ((processFacts (fun _ _ => "") researchDataWithDetail
        { downloadedSources := mapUpd mapEmpty "C100" { citationID := "C100" },
          callLog := [("C100", true)] }).2.downloadedSources "C100" =
        ({ downloadedSources := mapUpd mapEmpty "C100" { citationID := "C100" },
           callLog := [("C100", true)] } : SourceState).downloadedSources "C100" ∧
      (processFacts (fun _ _ => "") researchDataWithDetail
        { downloadedSources := mapUpd mapEmpty "C100" { citationID := "C100" },
          callLog := [("C100", true)] }).2.callLog.filter (fun e => e.1 == "C100") =
        ({ downloadedSources := mapUpd mapEmpty "C100" { citationID := "C100" },
           callLog := [("C100", true)] } : SourceState).callLog.filter
          (fun e => e.1 == "C100")) :=
  ⟨(downloadedSources_materializes_successfully_once (fun _ _ => "")
      [some researchDataNoDetail, some researchDataWithDetail] "C100").1,
   (downloadedSources_materializes_successfully_once (fun _ _ => "")
      [some researchDataNoDetail, some researchDataWithDetail] "C100").2
    researchDataWithDetail
    { downloadedSources := mapUpd mapEmpty "C100" { citationID := "C100" },
      callLog := [("C100", true)] } (by decide)⟩
